import Mathlib

/-!
Shallow embedding of `pixeltable/datatransfer/label_studio.py`
(`LabelStudioProject`): the Label Studio config parsing, task enumeration,
pull merging and push reconciliation logic, together with proofs of
functional-correctness and error-handling properties of those functions.
-/

namespace LabelStudio

/-- Pixeltable column types relevant to the Label Studio integration
(`ts.StringType`, `ts.ImageType`, `ts.VideoType`, `ts.AudioType`,
`ts.JsonType`). -/
inductive ColumnType
  | stringType
  | imageType
  | videoType
  | audioType
  | jsonType
  deriving DecidableEq, Repr

/-- `ColumnType.is_media_type()`: image, video and audio are media types. -/
def ColumnType.is_media_type : ColumnType → Bool
  | .imageType => true
  | .videoType => true
  | .audioType => true
  | _ => false

/-! ### XML elements (the output of `ElementTree.fromstring`) -/

/-- An XML element as produced by `ElementTree`: a tag, an attribute
dictionary (keys unique, insertion order kept) and the list of direct
children.  Only the tag and attributes of direct children matter to the
config-parsing code, but we keep the recursive shape of the tree. -/
structure XmlElement where
  tag : String
  attrib : List (String × String)
  children : List XmlElement

/-- Python `str.lower()` on tag names (character-wise lowering; the tags
involved are ASCII). -/
def strLower (s : String) : String := ⟨s.data.map Char.toLower⟩

/-- Dictionary lookup on an attribute list: `element.attrib.get(k)` /
`k in element.attrib`. -/
def attrValue (e : XmlElement) (k : String) : Option String :=
  (e.attrib.find? (fun p => p.1 = k)).map (·.2)

/-- `_LS_TAG_MAP`: the fixed, closed table mapping a (lower-cased) Label
Studio element tag to a Pixeltable column type. -/
def LS_TAG_MAP : List (String × ColumnType) :=
  [("text", .stringType), ("image", .imageType),
   ("video", .videoType), ("audio", .audioType)]

/-- `_LS_TAG_MAP.get(tag)`: dictionary `.get` on the tag table. -/
def lsTagMapGet (tag : String) : Option ColumnType :=
  (LS_TAG_MAP.find? (fun p => p.1 = tag)).map (·.2)

/-- The distinct ways `_parse_project_config` /
`_extract_vars_from_project_config` can fail:
`rootNotView` and `unsupportedTag` are `excs.Error` (schema errors) raised
explicitly by the code; `assertFailed` models the `assert root.tag == 'View'`
failing; `indexOutOfRange` models the `IndexError` from
`element.attrib['value'][0]` on an empty attribute value. -/
inductive ParseErr
  | rootNotView
  | unsupportedTag (tag : String)
  | assertFailed
  | indexOutOfRange
  deriving DecidableEq, Repr

/-- `_extract_vars_from_project_config`: walk the direct children of the
root; for each element with a `value` attribute whose first character is
`$`, look its lower-cased tag up in `_LS_TAG_MAP` (failing with an
`excs.Error` naming the original tag if absent) and yield the
sigil-stripped variable name paired with the column type.  Reading the
first character of an empty `value` attribute raises `IndexError`. -/
def extractVarsFromProjectConfig : List XmlElement → Except ParseErr (List (String × ColumnType))
  | [] => .ok []
  | e :: es =>
    match attrValue e "value" with
    | none => extractVarsFromProjectConfig es
    | some v =>
      match v.data with
      | [] => .error .indexOutOfRange
      | c :: _ =>
        if c = '$' then
          match lsTagMapGet (strLower e.tag) with
          | none => .error (.unsupportedTag e.tag)
          | some ty =>
            match extractVarsFromProjectConfig es with
            | .error err => .error err
            | .ok rest => .ok ((v.drop 1, ty) :: rest)
        else extractVarsFromProjectConfig es

/-- One step of Python `dict` construction: inserting key `k` with value
`v` overwrites the value at `k` if `k` is present (keeping its position)
and appends `(k, v)` otherwise. -/
def pyDictInsert (d : List (String × ColumnType)) (k : String) (v : ColumnType) :
    List (String × ColumnType) :=
  if d.any (fun p => p.1 = k) then
    d.map (fun p => if p.1 = k then (k, v) else p)
  else d ++ [(k, v)]

/-- Python `dict(pairs)`: fold the pairs into a dictionary, later values
for the same key overwriting earlier ones. -/
def pyDict (l : List (String × ColumnType)) : List (String × ColumnType) :=
  l.foldl (fun d p => pyDictInsert d p.1 p.2) []

/-- Dictionary lookup in a built dictionary. -/
def pyDictGet (d : List (String × ColumnType)) (k : String) : Option ColumnType :=
  (d.find? (fun p => p.1 = k)).map (·.2)

/-- The pair extraction yields for one element when no error interferes:
`some (variable name, column type)` for a sigil-carrying element with a
mapped tag, `none` for elements the loop skips. -/
def extractedVar (e : XmlElement) : Option (String × ColumnType) :=
  match attrValue e "value" with
  | none => none
  | some v =>
    match v.data with
    | [] => none
    | c :: _ =>
      if c = '$' then (lsTagMapGet (strLower e.tag)).map (fun ty => (v.drop 1, ty))
      else none

/-- The element carries a `value` attribute whose first character is the
variable sigil `$`. -/
def hasSigilValue (e : XmlElement) : Bool :=
  match attrValue e "value" with
  | none => false
  | some v =>
    match v.data with
    | [] => false
    | c :: _ => c = '$'

/-- The element's `value` attribute, when present, is non-empty. -/
def valueNonemptyB (e : XmlElement) : Bool :=
  match attrValue e "value" with
  | none => true
  | some v => !v.data.isEmpty

/-- If the element carries a sigil `value`, its lower-cased tag is in the
tag table. -/
def sigilTagMappedB (e : XmlElement) : Bool :=
  match attrValue e "value" with
  | none => true
  | some v =>
    match v.data with
    | [] => true
    | c :: _ => if c = '$' then (lsTagMapGet (strLower e.tag)).isSome else true

/-- The decidable precondition under which variable extraction is total:
every direct child's `value` attribute, when present, is non-empty. -/
def allValuesNonempty (children : List XmlElement) : Bool :=
  children.all valueNonemptyB

/-- The decidable precondition under which variable extraction succeeds:
every sigil-carrying direct child has a mapped tag. -/
def allSigilTagsMapped (children : List XmlElement) : Bool :=
  children.all sigilTagMappedB

/-- `_parse_project_config`, starting from the parsed root element
(`ElementTree.fromstring` itself is the external XML library): raise a
schema error unless the root tag is `view` up to case, then `assert` that
it is exactly `View`, then build the variable dictionary. -/
def parseProjectConfig (root : XmlElement) : Except ParseErr (List (String × ColumnType)) :=
  if strLower root.tag ≠ "view" then .error .rootNotView
  else if root.tag ≠ "View" then .error .assertFailed
  else
    match extractVarsFromProjectConfig root.children with
    | .error err => .error err
    | .ok l => .ok (pyDict l)

/-! ### Tasks and the task enumerator (`_get_all_tasks`) -/

/-- A Label Studio task as seen by the sync code: an opaque remote id,
`meta.rowid` (absent for tasks not created by Pixeltable) and the task's
annotation records (kept opaque as naturals). -/
structure LSTask where
  id : Nat
  rowid : Option (List Int)
  annotations : List Nat
  deriving DecidableEq, Repr

/-- `_PAGE_SIZE`, the page size used both when enumerating tasks and as
the batch size of the general push path. -/
def PAGE_SIZE : Nat := 100

/-- Inner loop of `_get_all_tasks` over one page: tasks without a
`meta.rowid` bump the unknown-task counter, the others are yielded in
order. -/
def scanPage : List LSTask → Nat → List LSTask × Nat
  | [], count => ([], count)
  | task :: rest, count =>
    match task.rowid with
    | none => scanPage rest (count + 1)
    | some _ =>
      let (ys, c) := scanPage rest count
      (task :: ys, c)

/-- `_get_all_tasks`, given the successive pages the remote service
returns for `get_paginated_tasks(page, page_size=_PAGE_SIZE)` until it
signals `end_pagination`: yields the recognized tasks page by page and,
after exhaustion, the accumulated unknown-task count.  The second
component is the list of emitted aggregate warnings (each carrying its
count): empty when no task was dropped, a single warning otherwise. -/
def getAllTasksLoop : List (List LSTask) → Nat → List LSTask × List Nat
  | [], count => ([], if count > 0 then [count] else [])
  | page :: pages, count =>
    let (ys, c) := scanPage page count
    let (rest, warns) := getAllTasksLoop pages c
    (ys ++ rest, warns)

/-- `_get_all_tasks` started at page 1 with a zero unknown-task count. -/
def getAllTasks (pages : List (List LSTask)) : List LSTask × List Nat :=
  getAllTasksLoop pages 0

/-! ### The pull merger (`_update_table_from_tasks`) -/

/-- `LabelStudioProject.ANNOTATIONS_COLUMN`. -/
def ANNOTATIONS_COLUMN : String := "annotations"

/-- One element of the `updates` list: `{'_rowid': ..., annotations_column: ...}`.
`val = none` models the `None` an empty annotation list is replaced by. -/
structure UpdateRecord where
  rowid : List Int
  col : String
  val : Option (List Nat)
  deriving DecidableEq, Repr

/-- A call made to the table adapter. -/
inductive TableCall
  | batchUpdate (updates : List UpdateRecord)
  deriving DecidableEq, Repr

/-- The `updates` list comprehension of `_update_table_from_tasks`: one
record per task, keyed by the task's `meta.rowid`, with an empty
annotation list replaced by `None`.  (`meta.rowid` is present on every
task reaching this code: the enumerator dropped the others.) -/
def pullUpdates (annotationsColumn : String) (tasks : List LSTask) : List UpdateRecord :=
  tasks.map fun task =>
    { rowid := task.rowid.getD []
      col := annotationsColumn
      val := if task.annotations.length > 0 then some task.annotations else none }

/-- `_update_table_from_tasks`: fail the `assert`/`next` (modelled as
`none`) unless some mapping entry targets the reserved annotations
column; otherwise build the updates and issue a single `batch_update`
exactly when the update list is non-empty.  The result records the update
list and the list of table-adapter calls made. -/
def updateTableFromTasks (col_mapping : List (String × String)) (tasks : List LSTask) :
    Option (List UpdateRecord × List TableCall) :=
  match col_mapping.find? (fun p => p.2 = ANNOTATIONS_COLUMN) with
  | none => none
  | some entry =>
    let updates := pullUpdates entry.1 tasks
    some (updates, if updates.length > 0 then [.batchUpdate updates] else [])

/-! ### The push reconciler (`_create_tasks_from_table`) -/

/-- A local table row as the push code sees it: its rowid and, per column
name, its plain value, its `.fileurl` projection and its `.localpath`
projection (all kept as strings; media validation only inspects string
shape). -/
structure PushRow where
  rowid : List Int
  vals : String → String
  fileurl : String → String
  localpath : String → String

/-- The table adapter surface used by push: `column_types()`, per-column
`is_stored`, and the rows produced by `select(...)._exec()` in iteration
order. -/
structure PxtTable where
  colType : String → ColumnType
  is_stored : String → Bool
  rows : List PushRow

/-- A task record submitted on the general path:
`{'data': zip(r_push_cols, row.vals), 'meta': {'rowid': row.rowid}}`. -/
structure TaskRecord where
  fields : List (String × String)
  rowid : List Int
  deriving DecidableEq, Repr

/-- A call made to the Label Studio remote adapter during push. -/
inductive RemoteCall
  | importFileTask (localpath : String)
  | updateTaskMeta (rowid : List Int)
  | importTaskBatch (tasks : List TaskRecord)
  deriving DecidableEq, Repr

/-- The ways `_create_tasks_from_table` raises `excs.Error`. -/
inductive PushErr
  | mediaNotStored (col : String)
  | localFileInMultiField
  deriving DecidableEq, Repr

/-- `row_ids_in_ls`: the set of rowids carried by the already-enumerated
tasks (every enumerated task carries one). -/
def rowIdsInLs (existing_tasks : List LSTask) : List (List Int) :=
  existing_tasks.filterMap (·.rowid)

/-- Dictionary lookup `col_mapping[col_name]` (the key is always present:
it came from iterating the same dictionary). -/
def dictGetStr (d : List (String × String)) (k : String) : String :=
  ((d.find? (fun p => p.1 = k)).map (·.2)).getD ""

/-- `t_push_cols`: local columns of the mapping whose remote name is one
of the project's declared push columns. -/
def tPushCols (col_mapping : List (String × String)) (push_columns : List String) :
    List String :=
  (col_mapping.filter (fun p => decide (p.2 ∈ push_columns))).map (·.1)

/-- The first push column that is a media column not backed by a stored
column, if any (the validation loop raises at the first one). -/
def firstUnstoredMedia (t : PxtTable) (cols : List String) : Option String :=
  cols.find? (fun c => (t.colType c).is_media_type && !(t.is_stored c))

/-- The select-list of the general path: the `.fileurl` projection for
media columns, the plain value otherwise, in `t_push_cols` order. -/
def projectVals (t : PxtTable) (cols : List String) (r : PushRow) : List String :=
  cols.map (fun c => if (t.colType c).is_media_type then r.fileurl c else r.vals c)

/-- Python `str.startswith`, character-wise. -/
def strStartsWith (s p : String) : Bool :=
  decide (s.data.take p.data.length = p.data)

/-- The per-row media validation of the general path: some projected
media value is a local-file reference (starts with `file://`). -/
def rowHasLocalFile (t : PxtTable) (cols : List String) (r : PushRow) : Bool :=
  (cols.zip (projectVals t cols r)).any
    (fun p => (t.colType p.1).is_media_type && strStartsWith p.2 "file://")

/-- `r_push_cols`: the remote field names of the push columns, obtained
by dictionary lookup of each local push column in the mapping. -/
def rPushCols (col_mapping : List (String × String)) (push_columns : List String) :
    List String :=
  (tPushCols col_mapping push_columns).map (dictGetStr col_mapping)

/-- `new_rows`: the rows whose rowid is not yet represented remotely. -/
def newRows (t : PxtTable) (row_ids_in_ls : List (List Int)) : List PushRow :=
  t.rows.filter (fun r => decide (r.rowid ∉ row_ids_in_ls))

/-- The task record built for one row of a validated batch. -/
def mkTaskRecord (t : PxtTable) (tcols rcols : List String) (r : PushRow) : TaskRecord :=
  { fields := rcols.zip (projectVals t tcols r), rowid := r.rowid }

/-- Fuel-driven worker for `chunksOf`; the fuel only serves structural
termination and is irrelevant as soon as it dominates the list length. -/
def chunksOfAux : Nat → Nat → List PushRow → List (List PushRow)
  | _, _, [] => []
  | 0, _, _ :: _ => []
  | fuel + 1, n, x :: xs => (x :: xs).take n :: chunksOfAux fuel n (xs.drop (n - 1))

/-- `more_itertools.batched(·, n)`: split a list into consecutive chunks
of size `n` (the last one possibly shorter). -/
def chunksOf (n : Nat) (l : List PushRow) : List (List PushRow) :=
  chunksOfAux l.length n l

/-- The batch loop of the general path: each batch is first validated row
by row (an offending row aborts the whole push, the current batch never
being submitted) and then submitted as one `import_tasks` bulk call. -/
def processBatches (t : PxtTable) (tcols rcols : List String) :
    List (List PushRow) → List RemoteCall × Option PushErr
  | [] => ([], none)
  | b :: bs =>
    if b.any (rowHasLocalFile t tcols) then ([], some .localFileInMultiField)
    else
      let (cs, e) := processBatches t tcols rcols bs
      (.importTaskBatch (b.map (mkTaskRecord t tcols rcols)) :: cs, e)

/-- The single-media fast path: for each row whose rowid is not already
remote, upload the media file and tag the created task with the rowid
(two sequential remote calls per new row). -/
def fastPathCalls (t : PxtTable) (col : String) (row_ids_in_ls : List (List Int)) :
    List RemoteCall :=
  (t.rows.filter (fun r => decide (r.rowid ∉ row_ids_in_ls))).flatMap
    (fun r => [.importFileTask (r.localpath col), .updateTaskMeta r.rowid])

/-- `_create_tasks_from_table`: compute the remote rowid set and the push
columns, validate that media push columns are stored, then follow either
the single-media fast path or the general batched path.  The result is
the list of remote calls actually issued, paired with the error that
aborted the push, if any. -/
def createTasksFromTable (t : PxtTable) (push_columns : List String)
    (col_mapping : List (String × String)) (existing_tasks : List LSTask) :
    List RemoteCall × Option PushErr :=
  let row_ids_in_ls := rowIdsInLs existing_tasks
  let tcols := tPushCols col_mapping push_columns
  let rcols := rPushCols col_mapping push_columns
  match firstUnstoredMedia t tcols with
  | some c => ([], some (.mediaNotStored c))
  | none =>
    if tcols.length = 1 ∧ (t.colType (tcols.headD "")).is_media_type then
      (fastPathCalls t (tcols.headD "") row_ids_in_ls, none)
    else
      processBatches t tcols rcols (chunksOf PAGE_SIZE (newRows t row_ids_in_ls))

/-- The rowids of the tasks a list of remote calls creates: a bulk import
creates one task per record, each tagged with its record's rowid; on the
fast path the created task is tagged by the following `update_task`
call. -/
def createdRowids : List RemoteCall → List (List Int)
  | [] => []
  | .importFileTask _ :: rest => createdRowids rest
  | .updateTaskMeta r :: rest => r :: createdRowids rest
  | .importTaskBatch ts :: rest => ts.map (·.rowid) ++ createdRowids rest

/-! ## Helper lemmas -/

theorem scanPage_eq (l : List LSTask) (c : Nat) :
    scanPage l c =
      (l.filter (fun t => t.rowid.isSome), c + (l.filter (fun t => t.rowid.isNone)).length) := by
  induction l generalizing c with
  | nil => simp [scanPage]
  | cons task rest ih =>
    cases h : task.rowid with
    | none =>
      simp only [scanPage, h, List.filter_cons, Option.isSome_none, Option.isNone_none,
        Bool.false_eq_true, if_false, if_true, ih, List.length_cons, Prod.mk.injEq]
      exact ⟨trivial, by omega⟩
    | some r =>
      simp only [scanPage, h, List.filter_cons, Option.isSome_some, Option.isNone_some,
        Bool.false_eq_true, if_true, if_false, ih]

theorem getAllTasksLoop_eq (pages : List (List LSTask)) (c : Nat) :
    getAllTasksLoop pages c =
      (pages.flatten.filter (fun t => t.rowid.isSome),
       if 0 < c + (pages.flatten.filter (fun t => t.rowid.isNone)).length
       then [c + (pages.flatten.filter (fun t => t.rowid.isNone)).length] else []) := by
  induction pages generalizing c with
  | nil => simp [getAllTasksLoop]
  | cons page pages ih =>
    simp only [getAllTasksLoop, scanPage_eq, ih, List.flatten_cons, List.filter_append,
      List.length_append]
    rw [Nat.add_assoc]

/-- C2: over any sequence of pages returned by the paginated-tasks
service, `_get_all_tasks` yields exactly the tasks carrying a
`meta.rowid`, in page order and within-page order (the filter of the page
concatenation); the dropped count is the number of tasks without a rowid,
and exactly one aggregate warning carrying that count is emitted when it
is positive, none when it is zero. -/
theorem getAllTasks_enumeration (pages : List (List LSTask)) :
    (getAllTasks pages).1 = pages.flatten.filter (fun t => t.rowid.isSome) ∧
    (getAllTasks pages).2 =
      (if 0 < (pages.flatten.filter (fun t => t.rowid.isNone)).length
       then [(pages.flatten.filter (fun t => t.rowid.isNone)).length] else []) := by
  simp [getAllTasks, getAllTasksLoop_eq]

/-- C4: the pull merger's update set has exactly one record per
enumerated task, in task order, keyed by that task's `meta.rowid`; an
empty annotation list is mapped to the absence marker `none` and a
non-empty one to the literal list; and the update set is a function of
the enumerated tasks alone, so two pulls against unchanged remote state
compute the same update set. -/
theorem updateTableFromTasks_updates (col_mapping : List (String × String))
    (tasks : List LSTask) (entry : String × String)
    (hfind : col_mapping.find? (fun p => p.2 = ANNOTATIONS_COLUMN) = some entry) :
    (∃ calls, updateTableFromTasks col_mapping tasks =
        some (pullUpdates entry.1 tasks, calls)) ∧
    (pullUpdates entry.1 tasks).length = tasks.length ∧
    (∀ i : Nat, (pullUpdates entry.1 tasks)[i]? =
        tasks[i]?.map (fun task =>
          { rowid := task.rowid.getD []
            col := entry.1
            val := if task.annotations = [] then none else some task.annotations })) ∧
    (∀ tasks' : List LSTask, tasks' = tasks →
        updateTableFromTasks col_mapping tasks' = updateTableFromTasks col_mapping tasks) := by
  refine ⟨⟨if (pullUpdates entry.1 tasks).length > 0
             then [TableCall.batchUpdate (pullUpdates entry.1 tasks)] else [],
           by unfold updateTableFromTasks; rw [hfind]⟩,
          by simp [pullUpdates], ?_, ?_⟩
  · intro i
    simp only [pullUpdates, List.getElem?_map]
    cases tasks[i]? with
    | none => rfl
    | some task =>
      simp only [Option.map_some']
      congr 1
      cases task.annotations <;> simp
  · intro tasks' h
    rw [h]

/-- C9: the pull merger issues exactly one `batch_update` call, carrying
the whole update list, when that list is non-empty, and issues no
table-adapter call at all when it is empty (the update list is empty
exactly when the enumerated task list is). -/
theorem updateTableFromTasks_frame (col_mapping : List (String × String))
    (tasks : List LSTask) (entry : String × String)
    (hfind : col_mapping.find? (fun p => p.2 = ANNOTATIONS_COLUMN) = some entry) :
    (tasks ≠ [] → updateTableFromTasks col_mapping tasks =
        some (pullUpdates entry.1 tasks,
              [TableCall.batchUpdate (pullUpdates entry.1 tasks)])) ∧
    (tasks = [] → updateTableFromTasks col_mapping tasks = some ([], [])) := by
  constructor
  · intro h
    have hlen : 0 < (pullUpdates entry.1 tasks).length := by
      simp [pullUpdates]
      exact List.length_pos_of_ne_nil h
    simp [updateTableFromTasks, hfind, hlen]
  · intro h
    subst h
    simp [updateTableFromTasks, hfind, pullUpdates]

/-- C10: variable extraction reads the first character of every `value`
attribute, so a direct child whose `value` attribute is the empty string
makes extraction fail with an `IndexError` — it is neither skipped nor
reported as a schema error — while under the precondition that every
`value` attribute is non-empty no `IndexError` can arise. -/
theorem extractVars_empty_value (e : XmlElement) (rest : List XmlElement)
    (hv : attrValue e "value" = some "") :
    extractVarsFromProjectConfig (e :: rest) = .error .indexOutOfRange ∧
    ∀ children : List XmlElement, allValuesNonempty children = true →
      extractVarsFromProjectConfig children ≠ .error .indexOutOfRange := by
  constructor
  · simp [extractVarsFromProjectConfig, hv]
  · intro children
    induction children with
    | nil => intro _ h; exact Except.noConfusion (by simpa using h)
    | cons e' es ih =>
      intro hall
      have hall' : allValuesNonempty es = true := by
        simp only [allValuesNonempty, List.all_cons, Bool.and_eq_true] at hall
        exact hall.2
      have he' : (match attrValue e' "value" with
          | none => true
          | some v => !v.data.isEmpty) = true := by
        simp only [allValuesNonempty, List.all_cons, Bool.and_eq_true] at hall
        exact hall.1
      cases hv' : attrValue e' "value" with
      | none =>
        simpa [extractVarsFromProjectConfig, hv'] using ih hall'
      | some v =>
        rw [hv'] at he'
        cases hd : v.data with
        | nil => simp [String.isEmpty, hd] at he'
        | cons c cs =>
          by_cases hc : c = '$'
          · cases htag : lsTagMapGet (strLower e'.tag) with
            | none => simp [extractVarsFromProjectConfig, hv', hd, hc, htag]
            | some ty =>
              cases hres : extractVarsFromProjectConfig es with
              | error err =>
                have : err ≠ ParseErr.indexOutOfRange := by
                  intro hbad; exact ih hall' (hbad ▸ hres)
                simp [extractVarsFromProjectConfig, hv', hd, hc, htag, hres, this]
              | ok l => simp [extractVarsFromProjectConfig, hv', hd, hc, htag, hres]
          · simpa [extractVarsFromProjectConfig, hv', hd, hc] using ih hall'

/-- C3 counterexample: the root tag `view` matches the required container
tag up to case, yet parsing does not accept it and proceed to variable
extraction — the exact-case `assert root.tag == 'View'` fails — and the
failure is the assertion, not the structural schema error. -/
theorem parse_config_case_counterexample :
    parseProjectConfig { tag := "view", attrib := [], children := [] } =
      .error .assertFailed ∧
    parseProjectConfig { tag := "view", attrib := [], children := [] } ≠
      .error .rootNotView ∧
    ∀ vars, parseProjectConfig { tag := "view", attrib := [], children := [] } ≠
      .ok vars := by
  have h1 : parseProjectConfig { tag := "view", attrib := [], children := [] } =
      .error .assertFailed := by
    have hl : strLower "view" = "view" := by decide
    simp [parseProjectConfig, hl]
  exact ⟨h1, by rw [h1]; simp, fun vars => by rw [h1]; simp⟩

/-- C3 amended: only the exact-case root tag `View` is accepted and
proceeds to variable extraction; a root tag equal to `view` up to case
but not exactly `View` fails the assertion instead of proceeding; a root
tag not matching `view` up to case fails with the structural schema
error. -/
theorem parse_config_root_policy (root : XmlElement) :
    (strLower root.tag ≠ "view" → parseProjectConfig root = .error .rootNotView) ∧
    (strLower root.tag = "view" → root.tag ≠ "View" →
        parseProjectConfig root = .error .assertFailed) ∧
    (root.tag = "View" →
        parseProjectConfig root =
          match extractVarsFromProjectConfig root.children with
          | .error err => .error err
          | .ok l => .ok (pyDict l)) := by
  refine ⟨fun h => ?_, fun h1 h2 => ?_, fun h => ?_⟩
  · simp [parseProjectConfig, h]
  · simp [parseProjectConfig, h1, h2]
  · have hlow : strLower "View" = "view" := by decide
    simp [parseProjectConfig, h, hlow]

/-- Witness for the amended C3 theorem at the concrete root tag `VIEW`. -/
theorem parse_config_root_policy_witness :
    parseProjectConfig { tag := "VIEW", attrib := [], children := [] } =
      .error .assertFailed :=
  (parse_config_root_policy { tag := "VIEW", attrib := [], children := [] }).2.1
    (by decide) (by decide)

/-- Witness for the C10 theorem: a `Text` child whose `value` attribute
is the empty string. -/
theorem extractVars_empty_value_witness :
    attrValue { tag := "Text", attrib := [("value", "")], children := [] } "value" =
      some "" ∧
    extractVarsFromProjectConfig
      [{ tag := "Text", attrib := [("value", "")], children := [] }] =
      .error .indexOutOfRange :=
  ⟨by decide,
   (extractVars_empty_value { tag := "Text", attrib := [("value", "")], children := [] }
      [] (by decide)).1⟩

/-- Witness for the C4 theorem: a two-task pull through the mapping
`{anncol ↦ annotations}`. -/
theorem updateTableFromTasks_updates_witness :
    (([("anncol", "annotations")] : List (String × String)).find?
        (fun p => p.2 = ANNOTATIONS_COLUMN) = some ("anncol", "annotations")) ∧
    (pullUpdates "anncol"
        [{ id := 1, rowid := some [1], annotations := [] },
         { id := 2, rowid := some [2], annotations := [5, 6] }]).length = 2 :=
  ⟨by decide,
   (updateTableFromTasks_updates [("anncol", "annotations")]
      [{ id := 1, rowid := some [1], annotations := [] },
       { id := 2, rowid := some [2], annotations := [5, 6] }]
      ("anncol", "annotations") (by decide)).2.1⟩

/-- Witness for the C9 theorem: with no enumerated tasks the pull merger
makes no table-adapter call. -/
theorem updateTableFromTasks_frame_witness :
    (([("anncol", "annotations")] : List (String × String)).find?
        (fun p => p.2 = ANNOTATIONS_COLUMN) = some ("anncol", "annotations")) ∧
    updateTableFromTasks [("anncol", "annotations")] ([] : List LSTask) =
      some ([], []) :=
  ⟨by decide,
   (updateTableFromTasks_frame [("anncol", "annotations")] [] ("anncol", "annotations")
      (by decide)).2 rfl⟩

/-- C7: a push column backed by a media type whose column is not stored
fails validation for the entire push: the error is raised before any
remote call, so the call list is empty. -/
theorem createTasks_unstored_media (t : PxtTable) (push_columns : List String)
    (col_mapping : List (String × String)) (existing_tasks : List LSTask) (c : String)
    (hc : c ∈ tPushCols col_mapping push_columns)
    (hmedia : (t.colType c).is_media_type = true)
    (hstored : t.is_stored c = false) :
    (createTasksFromTable t push_columns col_mapping existing_tasks).1 = [] ∧
    ∃ c', (createTasksFromTable t push_columns col_mapping existing_tasks).2 =
        some (.mediaNotStored c') := by
  have hex : (firstUnstoredMedia t (tPushCols col_mapping push_columns)).isSome := by
    rw [firstUnstoredMedia, List.find?_isSome]
    exact ⟨c, hc, by simp [hmedia, hstored]⟩
  obtain ⟨c', hc'⟩ := Option.isSome_iff_exists.mp hex
  rw [firstUnstoredMedia] at hc'
  constructor
  · simp [createTasksFromTable, firstUnstoredMedia, hc']
  · exact ⟨c', by simp [createTasksFromTable, firstUnstoredMedia, hc']⟩

/-- Witness for the C7 theorem: a single unstored media push column. -/
theorem createTasks_unstored_media_witness :
    "img" ∈ tPushCols [("img", "image")] ["image"] ∧
    (createTasksFromTable
        { colType := fun _ => .imageType, is_stored := fun _ => false, rows := [] }
        ["image"] [("img", "image")] []).1 = [] :=
  ⟨by decide,
   (createTasks_unstored_media
      { colType := fun _ => .imageType, is_stored := fun _ => false, rows := [] }
      ["image"] [("img", "image")] [] "img" (by decide) (by decide) (by decide)).1⟩

/-! ### Push-path helper lemmas -/

theorem chunksOfAux_congr (n : Nat) :
    ∀ f1 f2 (l : List PushRow), l.length ≤ f1 → l.length ≤ f2 →
      chunksOfAux f1 n l = chunksOfAux f2 n l := by
  intro f1
  induction f1 with
  | zero =>
    intro f2 l h1 _
    have : l = [] := List.eq_nil_of_length_eq_zero (Nat.le_zero.mp h1)
    subst this
    cases f2 <;> rfl
  | succ f ih =>
    intro f2 l h1 h2
    cases l with
    | nil => cases f2 <;> rfl
    | cons x xs =>
      cases f2 with
      | zero => simp at h2
      | succ f2' =>
        simp only [List.length_cons] at h1 h2
        simp only [chunksOfAux]
        congr 1
        apply ih <;> (simp only [List.length_drop]; omega)

theorem chunksOf_cons (n : Nat) (x : PushRow) (xs : List PushRow) :
    chunksOf n (x :: xs) = (x :: xs).take n :: chunksOf n (xs.drop (n - 1)) := by
  unfold chunksOf
  rw [show (x :: xs).length = xs.length + 1 from rfl, chunksOfAux]
  congr 1
  exact chunksOfAux_congr n xs.length (xs.drop (n - 1)).length _
    (by simp only [List.length_drop]; omega) le_rfl

theorem chunksOf_flatten (n : Nat) (hn : 1 ≤ n) (l : List PushRow) :
    (chunksOf n l).flatten = l := by
  have H : ∀ m (l : List PushRow), l.length ≤ m → (chunksOf n l).flatten = l := by
    intro m
    induction m with
    | zero =>
      intro l h
      have : l = [] := List.eq_nil_of_length_eq_zero (Nat.le_zero.mp h)
      subst this; rfl
    | succ m ih =>
      intro l h
      cases l with
      | nil => rfl
      | cons x xs =>
        rw [chunksOf_cons]
        simp only [List.flatten_cons]
        rw [ih (xs.drop (n - 1))
            (by simp only [List.length_drop]; simp only [List.length_cons] at h; omega)]
        obtain ⟨k, rfl⟩ : ∃ k, n = k + 1 := ⟨n - 1, by omega⟩
        simp only [List.take_succ_cons, Nat.add_sub_cancel, List.cons_append,
          List.take_append_drop]
  exact H l.length l le_rfl

theorem createdRowids_pairs (l : List PushRow) (col : String) :
    createdRowids (l.flatMap
        (fun r => [.importFileTask (r.localpath col), .updateTaskMeta r.rowid])) =
      l.map (·.rowid) := by
  induction l with
  | nil => rfl
  | cons r rest ih =>
    simp only [List.flatMap_cons, List.cons_append, List.nil_append, createdRowids,
      List.map_cons, List.append_eq]
    rw [← List.flatMap_def, ih]

theorem createdRowids_fastPath (t : PxtTable) (col : String) (S : List (List Int)) :
    createdRowids (fastPathCalls t col S) =
      (t.rows.filter (fun r => decide (r.rowid ∉ S))).map (·.rowid) := by
  unfold fastPathCalls
  exact createdRowids_pairs _ col

theorem processBatches_ok (t : PxtTable) (tcols rcols : List String)
    (bs : List (List PushRow))
    (h : (processBatches t tcols rcols bs).2 = none) :
    (processBatches t tcols rcols bs).1 =
      bs.map (fun b => .importTaskBatch (b.map (mkTaskRecord t tcols rcols))) := by
  induction bs with
  | nil => rfl
  | cons b rest ih =>
    cases hb : b.any (rowHasLocalFile t tcols) with
    | true => simp [processBatches, hb] at h
    | false =>
      simp only [processBatches, hb, Bool.false_eq_true, if_false] at h ⊢
      simp only [List.map_cons]
      rw [ih h]

theorem processBatches_take (t : PxtTable) (tcols rcols : List String) :
    ∀ (bs : List (List PushRow)) (j : Nat) (b : List PushRow),
      (∀ b' ∈ bs.take j, b'.any (rowHasLocalFile t tcols) = false) →
      bs[j]? = some b → b.any (rowHasLocalFile t tcols) = true →
      processBatches t tcols rcols bs =
        ((bs.take j).map
            (fun b' => RemoteCall.importTaskBatch (b'.map (mkTaskRecord t tcols rcols))),
         some PushErr.localFileInMultiField) := by
  intro bs
  induction bs with
  | nil => intro j b _ hj _; simp at hj
  | cons b0 rest ih =>
    intro j b hclean hj hbad
    cases j with
    | zero =>
      simp only [List.getElem?_cons_zero, Option.some.injEq] at hj
      subst hj
      simp [processBatches, hbad]
    | succ j' =>
      have h0 : b0.any (rowHasLocalFile t tcols) = false := hclean b0 (by simp)
      simp only [List.getElem?_cons_succ] at hj
      have hrec := ih j' b (fun b' hb' => hclean b' (by simp [hb'])) hj hbad
      simp [processBatches, h0, hrec]

theorem createdRowids_batches (t : PxtTable) (tcols rcols : List String)
    (bs : List (List PushRow)) :
    createdRowids (bs.map
        (fun b => RemoteCall.importTaskBatch (b.map (mkTaskRecord t tcols rcols)))) =
      bs.flatten.map (·.rowid) := by
  induction bs with
  | nil => rfl
  | cons b rest ih =>
    simp [createdRowids, ih, mkTaskRecord, List.map_map, Function.comp]

theorem map_rowid_filter (rows : List PushRow) (S : List (List Int)) :
    (rows.filter (fun r => decide (r.rowid ∉ S))).map (·.rowid) =
      (rows.map (·.rowid)).filter (fun rid => decide (rid ∉ S)) := by
  induction rows with
  | nil => rfl
  | cons r rest ih =>
    simp only [List.map_cons, List.filter_cons]
    cases hd : decide (r.rowid ∉ S) with
    | false => simp only [hd, Bool.false_eq_true, if_false]; exact ih
    | true => simp only [hd, if_true, List.map_cons]; rw [ih]

theorem createTasksFromTable_created (t : PxtTable) (push_columns : List String)
    (col_mapping : List (String × String)) (existing_tasks : List LSTask)
    (hok : (createTasksFromTable t push_columns col_mapping existing_tasks).2 = none) :
    createdRowids (createTasksFromTable t push_columns col_mapping existing_tasks).1 =
      (t.rows.map (·.rowid)).filter
        (fun rid => decide (rid ∉ rowIdsInLs existing_tasks)) := by
  unfold createTasksFromTable at hok ⊢
  cases hfu : firstUnstoredMedia t (tPushCols col_mapping push_columns) with
  | some c => simp [hfu] at hok
  | none =>
    simp only [hfu] at hok ⊢
    by_cases hcond : (tPushCols col_mapping push_columns).length = 1 ∧
        ((t.colType ((tPushCols col_mapping push_columns).headD "")).is_media_type = true)
    · simp only [if_pos hcond]
      rw [createdRowids_fastPath, map_rowid_filter]
    · simp only [if_neg hcond] at hok ⊢
      rw [processBatches_ok _ _ _ _ hok, createdRowids_batches,
        chunksOf_flatten PAGE_SIZE (by norm_num [PAGE_SIZE])]
      unfold newRows
      exact map_rowid_filter _ _

theorem count_eq_one_of_nodup_mem {a : List Int} {l : List (List Int)}
    (hn : l.Nodup) (hm : a ∈ l) : l.count a = 1 := by
  induction l with
  | nil => simp at hm
  | cons b rest ih =>
    simp only [List.count_cons]
    rcases List.mem_cons.mp hm with rfl | hmem
    · rw [List.count_eq_zero.mpr (List.nodup_cons.mp hn).1]
      simp
    · have hb : ¬(a = b) := by
        rintro rfl
        exact (List.nodup_cons.mp hn).1 hmem
      rw [ih (List.nodup_cons.mp hn).2 hmem]
      have hb2 : ¬(b = a) := fun h => hb h.symm
      simp [hb2]

/-- C1: when the push reconciler completes without error, the rowids of
the newly created tasks are exactly the local rowids minus the rowids
already carried by the enumerated remote tasks — one task per such rowid
(local rowids being distinct) and none for rowids already remote; in
particular a push in which every local rowid is already remote creates no
task. -/
theorem createTasksFromTable_push_set (t : PxtTable) (push_columns : List String)
    (col_mapping : List (String × String)) (existing_tasks : List LSTask)
    (hok : (createTasksFromTable t push_columns col_mapping existing_tasks).2 = none)
    (hnodup : (t.rows.map (·.rowid)).Nodup) :
    createdRowids (createTasksFromTable t push_columns col_mapping existing_tasks).1 =
      (t.rows.map (·.rowid)).filter
        (fun rid => decide (rid ∉ rowIdsInLs existing_tasks)) ∧
    (∀ rid,
      rid ∈ createdRowids (createTasksFromTable t push_columns col_mapping existing_tasks).1 ↔
        rid ∈ t.rows.map (·.rowid) ∧ rid ∉ rowIdsInLs existing_tasks) ∧
    (∀ rid ∈ t.rows.map (·.rowid), rid ∉ rowIdsInLs existing_tasks →
      (createdRowids (createTasksFromTable t push_columns col_mapping existing_tasks).1).count
        rid = 1) ∧
    (∀ rid ∈ rowIdsInLs existing_tasks,
      (createdRowids (createTasksFromTable t push_columns col_mapping existing_tasks).1).count
        rid = 0) ∧
    ((∀ rid ∈ t.rows.map (·.rowid), rid ∈ rowIdsInLs existing_tasks) →
      createdRowids (createTasksFromTable t push_columns col_mapping existing_tasks).1 = []) := by
  have h := createTasksFromTable_created t push_columns col_mapping existing_tasks hok
  refine ⟨h, ?_, ?_, ?_, ?_⟩
  · intro rid
    rw [h]
    simp [List.mem_filter]
  · intro rid hmem hnotin
    rw [h]
    refine count_eq_one_of_nodup_mem (hnodup.filter _)
      (List.mem_filter.mpr ⟨hmem, ?_⟩)
    exact decide_eq_true hnotin
  · intro rid hin
    rw [h]
    refine List.count_eq_zero.mpr (fun hmem => ?_)
    have := List.mem_filter.mp hmem
    simp at this
    exact this.2 hin
  · intro hall
    rw [h]
    refine List.filter_eq_nil_iff.mpr (fun rid hrid => ?_)
    simpa using hall rid hrid

/-- Witness for the C1 theorem: three local rows with rowids `[1]`, `[2]`,
`[4]`, one existing remote task for `[1]`; the created tasks are exactly
`[2]` and `[4]`. -/
theorem createTasksFromTable_push_set_witness :
    ((createTasksFromTable
        { colType := fun _ => ColumnType.stringType, is_stored := fun _ => true
          rows :=
            [{ rowid := [1], vals := fun _ => "v1", fileurl := fun _ => "u1",
               localpath := fun _ => "p1" },
             { rowid := [2], vals := fun _ => "v2", fileurl := fun _ => "u2",
               localpath := fun _ => "p2" },
             { rowid := [4], vals := fun _ => "v4", fileurl := fun _ => "u4",
               localpath := fun _ => "p4" }] }
        ["cap"] [("txt", "cap")]
        [{ id := 11, rowid := some [1], annotations := [] }]).2 = none) ∧
    createdRowids (createTasksFromTable
        { colType := fun _ => ColumnType.stringType, is_stored := fun _ => true
          rows :=
            [{ rowid := [1], vals := fun _ => "v1", fileurl := fun _ => "u1",
               localpath := fun _ => "p1" },
             { rowid := [2], vals := fun _ => "v2", fileurl := fun _ => "u2",
               localpath := fun _ => "p2" },
             { rowid := [4], vals := fun _ => "v4", fileurl := fun _ => "u4",
               localpath := fun _ => "p4" }] }
        ["cap"] [("txt", "cap")]
        [{ id := 11, rowid := some [1], annotations := [] }]).1 = [[2], [4]] := by
  constructor
  · decide
  · rw [(createTasksFromTable_push_set _ ["cap"] [("txt", "cap")]
      [{ id := 11, rowid := some [1], annotations := [] }] (by decide) (by decide)).1]
    decide

/-- C5: on the general push path, a successful push submits the filtered
rows in consecutive batches of `_PAGE_SIZE` (the page-size constant also
used by enumeration), one bulk `import_tasks` call per batch, each row
becoming a record whose `data` is the pairing of the remote field names
with the row's projected values (the `.fileurl` projection for media
columns, the plain value otherwise) and whose `meta` carries the row's
rowid. -/
theorem createTasksFromTable_general_batches (t : PxtTable) (push_columns : List String)
    (col_mapping : List (String × String)) (existing_tasks : List LSTask)
    (hgen : ¬((tPushCols col_mapping push_columns).length = 1 ∧
        ((t.colType ((tPushCols col_mapping push_columns).headD "")).is_media_type = true)))
    (hok : (createTasksFromTable t push_columns col_mapping existing_tasks).2 = none) :
    (createTasksFromTable t push_columns col_mapping existing_tasks).1 =
      (chunksOf PAGE_SIZE (newRows t (rowIdsInLs existing_tasks))).map
        (fun b => RemoteCall.importTaskBatch (b.map (fun r =>
          { fields := (rPushCols col_mapping push_columns).zip
              ((tPushCols col_mapping push_columns).map
                (fun c => if (t.colType c).is_media_type then r.fileurl c else r.vals c))
            rowid := r.rowid }))) := by
  unfold createTasksFromTable at hok ⊢
  cases hfu : firstUnstoredMedia t (tPushCols col_mapping push_columns) with
  | some c => simp [hfu] at hok
  | none =>
    simp only [hfu] at hok ⊢
    simp only [if_neg hgen] at hok ⊢
    exact processBatches_ok _ _ _ _ hok

/-- Witness for the C5 theorem: one text column, one new row, yielding a
single batch with a single task record. -/
theorem createTasksFromTable_general_batches_witness :
    (createTasksFromTable
        { colType := fun _ => ColumnType.stringType, is_stored := fun _ => true
          rows :=
            [{ rowid := [2], vals := fun _ => "v2", fileurl := fun _ => "u2",
               localpath := fun _ => "p2" }] }
        ["cap"] [("txt", "cap")] []).1 =
      [RemoteCall.importTaskBatch [{ fields := [("cap", "v2")], rowid := [2] }]] := by
  rw [createTasksFromTable_general_batches _ ["cap"] [("txt", "cap")] []
    (by decide) (by decide)]
  decide

/-- C6: on the general push path, if the `j`-th batch is the first one
containing a row whose media-column projection is a local-file reference
(`file://...`), the push fails with the validation error and the issued
create calls are exactly those of the first `j` batches — none for the
offending batch. -/
theorem createTasksFromTable_local_file (t : PxtTable) (push_columns : List String)
    (col_mapping : List (String × String)) (existing_tasks : List LSTask)
    (j : Nat) (b : List PushRow)
    (hstored : firstUnstoredMedia t (tPushCols col_mapping push_columns) = none)
    (hgen : ¬((tPushCols col_mapping push_columns).length = 1 ∧
        ((t.colType ((tPushCols col_mapping push_columns).headD "")).is_media_type = true)))
    (hclean : ∀ b' ∈ (chunksOf PAGE_SIZE (newRows t (rowIdsInLs existing_tasks))).take j,
        b'.any (rowHasLocalFile t (tPushCols col_mapping push_columns)) = false)
    (hj : (chunksOf PAGE_SIZE (newRows t (rowIdsInLs existing_tasks)))[j]? = some b)
    (hbad : b.any (rowHasLocalFile t (tPushCols col_mapping push_columns)) = true) :
    (createTasksFromTable t push_columns col_mapping existing_tasks).2 =
      some PushErr.localFileInMultiField ∧
    (createTasksFromTable t push_columns col_mapping existing_tasks).1 =
      ((chunksOf PAGE_SIZE (newRows t (rowIdsInLs existing_tasks))).take j).map
        (fun b' => RemoteCall.importTaskBatch
          (b'.map (mkTaskRecord t (tPushCols col_mapping push_columns)
            (rPushCols col_mapping push_columns)))) := by
  have hpb := processBatches_take t (tPushCols col_mapping push_columns)
    (rPushCols col_mapping push_columns)
    (chunksOf PAGE_SIZE (newRows t (rowIdsInLs existing_tasks))) j b hclean hj hbad
  unfold createTasksFromTable
  simp only [hstored, if_neg hgen, hpb]
  exact ⟨trivial, trivial⟩

/-- Witness for the C6 theorem: a text column and an image column, one
new row whose image projection is a `file://` reference; the push fails
with the validation error and no create call is issued. -/
theorem createTasksFromTable_local_file_witness :
    (createTasksFromTable
        { colType := fun c => if c = "img" then ColumnType.imageType
                              else ColumnType.stringType
          is_stored := fun _ => true
          rows :=
            [{ rowid := [2], vals := fun _ => "v2", fileurl := fun _ => "file:///tmp/2",
               localpath := fun _ => "/tmp/2" }] }
        ["cap", "image"] [("txt", "cap"), ("img", "image")] []).2 =
      some PushErr.localFileInMultiField := by
  exact (createTasksFromTable_local_file
    { colType := fun c => if c = "img" then ColumnType.imageType
                          else ColumnType.stringType
      is_stored := fun _ => true
      rows :=
        [{ rowid := [2], vals := fun _ => "v2", fileurl := fun _ => "file:///tmp/2",
           localpath := fun _ => "/tmp/2" }] }
    ["cap", "image"] [("txt", "cap"), ("img", "image")] [] 0
    [{ rowid := [2], vals := fun _ => "v2", fileurl := fun _ => "file:///tmp/2",
       localpath := fun _ => "/tmp/2" }]
    (by decide) (by decide) (by simp) rfl (by decide)).1

/-! ### Python-dict lemmas (last-write-wins semantics of `dict(pairs)`) -/

theorem pyDict_append (l : List (String × ColumnType)) (p : String × ColumnType) :
    pyDict (l ++ [p]) = pyDictInsert (pyDict l) p.1 p.2 := by
  simp [pyDict, List.foldl_append]

theorem find?_map_replace_ne (d : List (String × ColumnType)) (k k' : String)
    (v : ColumnType) (hne : k' ≠ k) :
    (d.map (fun p => if p.1 = k then (k, v) else p)).find? (fun p => decide (p.1 = k')) =
      d.find? (fun p => decide (p.1 = k')) := by
  induction d with
  | nil => rfl
  | cons p rest ih =>
    simp only [List.map_cons]
    by_cases hp : p.1 = k
    · rw [if_pos hp,
        List.find?_cons_of_neg _ (by simp only [decide_eq_true_eq]; exact fun h => hne h.symm),
        List.find?_cons_of_neg _ (by simp only [decide_eq_true_eq]; exact fun h => hne (h ▸ hp))]
      exact ih
    · rw [if_neg hp]
      by_cases h3 : p.1 = k'
      · rw [List.find?_cons_of_pos _ (by simp [h3]), List.find?_cons_of_pos _ (by simp [h3])]
      · rw [List.find?_cons_of_neg _ (by simp [h3]), List.find?_cons_of_neg _ (by simp [h3])]
        exact ih

theorem find?_map_replace_eq (d : List (String × ColumnType)) (k : String)
    (v : ColumnType) (hany : d.any (fun p => p.1 = k) = true) :
    (d.map (fun p => if p.1 = k then (k, v) else p)).find? (fun p => decide (p.1 = k)) =
      some (k, v) := by
  induction d with
  | nil => simp at hany
  | cons p rest ih =>
    simp only [List.map_cons]
    by_cases hp : p.1 = k
    · rw [if_pos hp, List.find?_cons_of_pos _ (by simp)]
    · rw [if_neg hp, List.find?_cons_of_neg _ (by simp [hp])]
      apply ih
      simp only [List.any_cons, Bool.or_eq_true, decide_eq_true_eq] at hany
      rcases hany with h | h
      · exact absurd h hp
      · exact h

theorem pyDictGet_insert (d : List (String × ColumnType)) (k k' : String)
    (v : ColumnType) :
    pyDictGet (pyDictInsert d k v) k' = if k' = k then some v else pyDictGet d k' := by
  by_cases hany : d.any (fun p => p.1 = k) = true
  · unfold pyDictInsert
    rw [if_pos hany]
    by_cases hk : k' = k
    · subst hk
      unfold pyDictGet
      rw [if_pos rfl, find?_map_replace_eq d k' v hany]
      rfl
    · unfold pyDictGet
      rw [if_neg hk, find?_map_replace_ne d k k' v hk]
  · unfold pyDictInsert
    rw [if_neg hany]
    unfold pyDictGet
    rw [List.find?_append]
    have hnone : d.find? (fun p => decide (p.1 = k)) = none := by
      rw [List.find?_eq_none]
      intro p hp
      simp only [decide_eq_true_eq]
      intro h
      exact hany (List.any_eq_true.mpr ⟨p, hp, by simp [h]⟩)
    by_cases hk : k' = k
    · subst hk
      rw [if_pos rfl, hnone, List.find?_cons_of_pos _ (by simp)]
      rfl
    · rw [if_neg hk,
        show ([(k, v)] : List (String × ColumnType)).find?
            (fun p => decide (p.1 = k')) = none from
          by rw [List.find?_cons_of_neg _
              (by simp only [decide_eq_true_eq]; exact fun h => hk h.symm)]; rfl,
        Option.or_none]

theorem pyDictGet_pyDict (l : List (String × ColumnType)) (k : String) :
    pyDictGet (pyDict l) k =
      (l.reverse.find? (fun p => decide (p.1 = k))).map (·.2) := by
  induction l using List.reverseRecOn with
  | nil => rfl
  | append_singleton l p ih =>
    rw [pyDict_append, pyDictGet_insert, List.reverse_append]
    simp only [List.reverse_cons, List.reverse_nil, List.nil_append, List.singleton_append]
    by_cases hk : k = p.1
    · rw [if_pos hk, List.find?_cons_of_pos _ (by simp [hk])]
      rfl
    · rw [if_neg hk,
        List.find?_cons_of_neg _
          (by simp only [decide_eq_true_eq]; exact fun h => hk h.symm)]
      exact ih

theorem pyDictGet_isSome_iff (d : List (String × ColumnType)) (k : String) :
    (pyDictGet d k).isSome = true ↔ k ∈ d.map (·.1) := by
  simp only [pyDictGet, Option.isSome_map', List.find?_isSome, List.mem_map,
    decide_eq_true_eq]

theorem pyDict_keys_mem (l : List (String × ColumnType)) (k : String) :
    k ∈ (pyDict l).map (·.1) ↔ k ∈ l.map (·.1) := by
  rw [← pyDictGet_isSome_iff, pyDictGet_pyDict]
  simp only [Option.isSome_map', List.find?_isSome, decide_eq_true_eq, List.mem_map]
  constructor
  · rintro ⟨p, hp, h⟩
    exact ⟨p, List.mem_reverse.mp hp, h⟩
  · rintro ⟨p, hp, h⟩
    exact ⟨p, List.mem_reverse.mpr hp, h⟩

theorem extractVars_ok (children : List XmlElement)
    (hval : allValuesNonempty children = true)
    (hmap : allSigilTagsMapped children = true) :
    extractVarsFromProjectConfig children = .ok (children.filterMap extractedVar) := by
  induction children with
  | nil => rfl
  | cons e es ih =>
    have hv1 : valueNonemptyB e = true := by
      simp only [allValuesNonempty, List.all_cons, Bool.and_eq_true] at hval
      exact hval.1
    have hv2 : allValuesNonempty es = true := by
      simp only [allValuesNonempty, List.all_cons, Bool.and_eq_true] at hval
      exact hval.2
    have hm1 : sigilTagMappedB e = true := by
      simp only [allSigilTagsMapped, List.all_cons, Bool.and_eq_true] at hmap
      exact hmap.1
    have hm2 : allSigilTagsMapped es = true := by
      simp only [allSigilTagsMapped, List.all_cons, Bool.and_eq_true] at hmap
      exact hmap.2
    cases hv : attrValue e "value" with
    | none =>
      simp only [extractVarsFromProjectConfig, hv, List.filterMap_cons]
      rw [show extractedVar e = none from by simp [extractedVar, hv]]
      exact ih hv2 hm2
    | some v =>
      cases hd : v.data with
      | nil =>
        have : False := by simp [valueNonemptyB, hv, hd] at hv1
        exact this.elim
      | cons c cs =>
        by_cases hc : c = '$'
        · cases hty : lsTagMapGet (strLower e.tag) with
          | none =>
            have : False := by simp [sigilTagMappedB, hv, hd, hc, hty] at hm1
            exact this.elim
          | some ty =>
            simp only [extractVarsFromProjectConfig, hv, hd, if_pos hc, hty, ih hv2 hm2,
              List.filterMap_cons]
            rw [show extractedVar e = some (v.drop 1, ty) from by
              simp [extractedVar, hv, hd, if_pos hc, hty]]
        · simp only [extractVarsFromProjectConfig, hv, hd, if_neg hc, List.filterMap_cons]
          rw [show extractedVar e = none from by simp [extractedVar, hv, hd, if_neg hc]]
          exact ih hv2 hm2

theorem extractVars_unsupported (pre : List XmlElement) (e : XmlElement)
    (post : List XmlElement)
    (hval : allValuesNonempty pre = true) (hmap : allSigilTagsMapped pre = true)
    (hsig : hasSigilValue e = true) (hbad : lsTagMapGet (strLower e.tag) = none) :
    extractVarsFromProjectConfig (pre ++ e :: post) = .error (.unsupportedTag e.tag) := by
  induction pre with
  | nil =>
    cases hv : attrValue e "value" with
    | none =>
      have : False := by simp [hasSigilValue, hv] at hsig
      exact this.elim
    | some v =>
      cases hd : v.data with
      | nil =>
        have : False := by simp [hasSigilValue, hv, hd] at hsig
        exact this.elim
      | cons c cs =>
        have hc : c = '$' := by
          have h := hsig
          simp [hasSigilValue, hv, hd] at h
          exact h
        simp [extractVarsFromProjectConfig, hv, hd, hc, hbad]
  | cons p rest ih =>
    have hv1 : valueNonemptyB p = true := by
      simp only [allValuesNonempty, List.all_cons, Bool.and_eq_true] at hval
      exact hval.1
    have hv2 : allValuesNonempty rest = true := by
      simp only [allValuesNonempty, List.all_cons, Bool.and_eq_true] at hval
      exact hval.2
    have hm1 : sigilTagMappedB p = true := by
      simp only [allSigilTagsMapped, List.all_cons, Bool.and_eq_true] at hmap
      exact hmap.1
    have hm2 : allSigilTagsMapped rest = true := by
      simp only [allSigilTagsMapped, List.all_cons, Bool.and_eq_true] at hmap
      exact hmap.2
    have hrec := ih hv2 hm2
    cases hv : attrValue p "value" with
    | none => simpa [extractVarsFromProjectConfig, hv] using hrec
    | some v =>
      cases hd : v.data with
      | nil =>
        have : False := by simp [valueNonemptyB, hv, hd] at hv1
        exact this.elim
      | cons c cs =>
        by_cases hc : c = '$'
        · cases hty : lsTagMapGet (strLower p.tag) with
          | none =>
            have : False := by simp [sigilTagMappedB, hv, hd, hc, hty] at hm1
            exact this.elim
          | some ty =>
            simp [extractVarsFromProjectConfig, hv, hd, if_pos hc, hty, hrec]
        · simpa [extractVarsFromProjectConfig, hv, hd, if_neg hc] using hrec

theorem filterMap_keys_iff (children : List XmlElement)
    (hmap : allSigilTagsMapped children = true) (k : String) :
    k ∈ (children.filterMap extractedVar).map (·.1) ↔
      ∃ e ∈ children, ∃ v, attrValue e "value" = some v ∧
        v.data.head? = some '$' ∧ v.drop 1 = k := by
  simp only [List.mem_map, List.mem_filterMap]
  constructor
  · rintro ⟨p, ⟨e, he, hev⟩, hk⟩
    refine ⟨e, he, ?_⟩
    cases hv : attrValue e "value" with
    | none => simp [extractedVar, hv] at hev
    | some v =>
      cases hd : v.data with
      | nil => simp [extractedVar, hv, hd] at hev
      | cons c cs =>
        by_cases hc : c = '$'
        · cases hty : lsTagMapGet (strLower e.tag) with
          | none => simp [extractedVar, hv, hd, hc, hty] at hev
          | some ty =>
            simp only [extractedVar, hv, hd, if_pos hc, hty, Option.map_some',
              Option.some.injEq] at hev
            refine ⟨v, rfl, by simp [hd, hc], ?_⟩
            rw [← hk, ← hev]
        · simp [extractedVar, hv, hd, hc] at hev
  · rintro ⟨e, he, v, hv, hhead, hk⟩
    have hme : sigilTagMappedB e = true := by
      unfold allSigilTagsMapped at hmap
      exact List.all_eq_true.mp hmap e he
    cases hd : v.data with
    | nil => rw [hd] at hhead; simp at hhead
    | cons c cs =>
      have hc : c = '$' := by
        rw [hd] at hhead
        simpa using hhead
      cases hty : lsTagMapGet (strLower e.tag) with
      | none =>
        have : False := by simp [sigilTagMappedB, hv, hd, hc, hty] at hme
        exact this.elim
      | some ty =>
        refine ⟨(k, ty), ⟨e, he, ?_⟩, rfl⟩
        simp [extractedVar, hv, hd, hc, hty, hk]

/-- C8: for a root tagged exactly `View` with every `value` attribute
non-empty: (a) when every sigil-carrying child's tag is in the tag table,
parsing returns the Python dict built from the extracted (name, type)
pairs — its keys are exactly the sigil-stripped variable names of the
children whose `value` begins with `$`, lookup in it returns the LAST
matching extracted pair's type (last-write-wins), and each extracted pair
carries the type selected from the tag table by the case-insensitive tag;
(b) if a sigil-carrying child has a tag absent from the table (all
earlier children being well-formed), parsing fails with the schema error
naming that child's original tag. -/
theorem parse_config_vars (root : XmlElement) (hroot : root.tag = "View") :
    (allValuesNonempty root.children = true → allSigilTagsMapped root.children = true →
      parseProjectConfig root = .ok (pyDict (root.children.filterMap extractedVar)) ∧
      (∀ k, k ∈ (pyDict (root.children.filterMap extractedVar)).map (·.1) ↔
        ∃ e ∈ root.children, ∃ v, attrValue e "value" = some v ∧
          v.data.head? = some '$' ∧ v.drop 1 = k) ∧
      (∀ k, pyDictGet (pyDict (root.children.filterMap extractedVar)) k =
        (((root.children.filterMap extractedVar).reverse.find?
            (fun p => decide (p.1 = k))).map (·.2))) ∧
      (∀ e ∈ root.children, ∀ v ty, attrValue e "value" = some v →
        v.data.head? = some '$' → lsTagMapGet (strLower e.tag) = some ty →
        extractedVar e = some (v.drop 1, ty))) ∧
    (∀ pre e post, root.children = pre ++ e :: post →
      allValuesNonempty pre = true → allSigilTagsMapped pre = true →
      hasSigilValue e = true → lsTagMapGet (strLower e.tag) = none →
      parseProjectConfig root = .error (.unsupportedTag e.tag)) := by
  have hlow : strLower "View" = "view" := by decide
  constructor
  · intro hval hmap
    refine ⟨?_, ?_, ?_, ?_⟩
    · simp [parseProjectConfig, hroot, hlow, extractVars_ok root.children hval hmap]
    · intro k
      rw [pyDict_keys_mem]
      exact filterMap_keys_iff root.children hmap k
    · intro k
      exact pyDictGet_pyDict _ k
    · intro e _ v ty hv hhead hty
      cases hd : v.data with
      | nil => rw [hd] at hhead; simp at hhead
      | cons c cs =>
        have hc : c = '$' := by
          rw [hd] at hhead
          simpa using hhead
        simp [extractedVar, hv, hd, hc, hty]
  · intro pre e post hch hval hmap hsig hbad
    have hx := extractVars_unsupported pre e post hval hmap hsig hbad
    simp [parseProjectConfig, hroot, hlow, hch, hx]

/-- Witness for the C8 theorem: the spec's example config
`<View><Text value="$prompt"/><Image value="$img"/></View>` parses to
`{prompt: String, img: Image}`. -/
theorem parse_config_vars_witness :
    parseProjectConfig
      { tag := "View", attrib := [],
        children :=
          [{ tag := "Text", attrib := [("value", "$prompt")], children := [] },
           { tag := "Image", attrib := [("value", "$img")], children := [] }] } =
      .ok [("prompt", ColumnType.stringType), ("img", ColumnType.imageType)] := by
  have h := ((parse_config_vars
      { tag := "View", attrib := [],
        children :=
          [{ tag := "Text", attrib := [("value", "$prompt")], children := [] },
           { tag := "Image", attrib := [("value", "$img")], children := [] }] }
      rfl).1 (by decide) (by decide)).1
  rw [h]
  rfl

end LabelStudio
